import Mathlib

/-!
Verification of the Study-Tracker correlation engine
(`src/core/correlation_engine.py`) against its specification.

Shallow embedding conventions:
* Calendar dates are modelled as integer day numbers (`ℤ`); day 0 is a Monday.
* A pandas/SQL numeric cell is `Option ℚ`; `none` models NaN/NULL.
* A DataFrame is a `Frame`: an ordered date index together with named columns,
  each column a total function from day number to cell (a pandas Series aligned
  on the index).  The always-present categorical `day_of_week` column is kept in
  the separate `dow` field because its values are strings, not numbers.
* `df[name] = series` is `Frame.setCol` (replace in place when the column
  exists, append otherwise), `df.join` / alignment is function composition on
  the fixed index, and SQL queries are filters over in-memory tables.
-/

namespace StudyTracker

/-- A numeric cell: `none` models NaN/NULL. -/
abbrev Cell := Option ℚ

/-- A column: values aligned on the date index (day number to cell). -/
abbrev Col := ℤ → Cell

/-- A pandas DataFrame with a date index.  `dow` models the string-valued
`day_of_week` column, which the engine always populates. -/
structure Frame where
  index : List ℤ
  cols : List (String × Col)
  dow : ℤ → String

/-- The column names of a frame, in column order (`df.columns`). -/
def Frame.colNames (df : Frame) : List String := df.cols.map Prod.fst

/-- `name in df.columns`. -/
def Frame.hasCol (df : Frame) (name : String) : Bool :=
  df.cols.any (fun c => c.1 == name)

/-- `df[name]`: the first column carrying `name`; all-NaN when absent. -/
def Frame.getCol (df : Frame) (name : String) : Col :=
  match df.cols.find? (fun c => c.1 == name) with
  | some c => c.2
  | none => fun _ => none

/-- Helper for `df[name] = v`: replace the first binding of `name` in place,
append at the end when `name` is fresh. -/
def setColAux : List (String × Col) → String → Col → List (String × Col)
  | [], name, v => [(name, v)]
  | c :: cs, name, v =>
    if c.1 = name then (name, v) :: cs else c :: setColAux cs name v

/-- `df[name] = v`. -/
def Frame.setCol (df : Frame) (name : String) (v : Col) : Frame :=
  { df with cols := setColAux df.cols name v }

/-- `df[name].notna().sum()`: number of index dates with a non-missing value. -/
def Frame.notnaCount (df : Frame) (name : String) : ℕ :=
  (df.index.filter (fun d => (df.getCol name d).isSome)).length

/-- `pd.date_range(start, end, freq=D)`: the dense daily index. -/
def dateRange (startD endD : ℤ) : List ℤ :=
  (List.range (endD - startD + 1).toNat).map (fun i => startD + Int.ofNat i)

/-- Full weekday names as produced by `DatetimeIndex.day_name()`,
starting from day number 0 (a Monday). -/
def DAY_NAMES : List String :=
  ["Monday", "Tuesday", "Wednesday", "Thursday", "Friday", "Saturday", "Sunday"]

/-- `day_name()` for a day number. -/
def dayName (d : ℤ) : String :=
  DAY_NAMES.getD (((d % 7 + 7) % 7).toNat) "Monday"

/-- Python `needle in hay` (substring containment). -/
def containsSub (needle hay : String) : Bool :=
  decide (needle.data <:+: hay.data)

/-- Python `s.startswith(pre)`. -/
def startsWithStr (pre s : String) : Bool :=
  decide (pre.data <+: s.data)

-- --- Constants for column names (module-level constants of the source) ---

def TARGET_VARIABLE : String := "total_study_minutes"

/-- Source constant `CUSTOM_FACTOR_PREFIX`. -/
def FACTOR_PREF : String := "factor_"

/-- The fixed built-in candidate feature list (`POTENTIAL_FEATURE_COLS`). -/
def POTENTIAL_FEATURE_COLS : List String :=
  ["sleep_score", "avg_stress", "body_battery", "sleep_duration_seconds",
   "resting_hr", "pulse_ox", "respiration",
   "running_minutes", "distance", "activity_count", "breathwork_sessions",
   "total_activity_minutes", "total_calories", "avg_activity_duration_minutes"]

def DAYS_OF_WEEK : List String := ["Mon", "Tue", "Wed", "Thu", "Fri", "Sat", "Sun"]

-- --- The data store (the SQLite tables the engine queries) ---

/-- A row of `sessions` (joined with `tags`): `day` is `date(start_time)` as a
day number, and `selected` records whether the row satisfies the analysis
`where_clause` (tag join plus optional category/date predicate). -/
structure Session where
  day : ℤ
  durationSeconds : ℚ
  selected : Bool

/-- A row of `health_metrics` (`date` is the primary key, hence unique). -/
structure HealthRow where
  day : ℤ
  sleep_score : Cell
  resting_hr : Cell
  body_battery : Cell
  pulse_ox : Cell
  respiration : Cell
  sleep_duration_seconds : Cell
  avg_stress : Cell

/-- A row of `activities`: `day` is `date(start_time)` as a day number. -/
structure Activity where
  day : ℤ
  activityType : String
  durationSeconds : ℚ
  distance : Cell

/-- The persistent store: sessions, health metrics, activities, and the
registered custom factors each with their sparse override log
(`(day, value)` pairs; `(factor_name, date)` is UNIQUE, hence no duplicate
days inside one factor log). -/
structure Store where
  sessions : List Session
  health : List HealthRow
  activities : List Activity
  customFactors : List (String × List (ℤ × ℚ))

/-- Modelled from the spec: `get_earliest_session_date` lives in the database
layer, which is not under `src/` (only its caller is).  Spec: "Earliest session
date overall (for the inaccessible-before-this-date rule)" — the minimum
session day across all recorded sessions, `none` when no sessions exist. -/
def get_earliest_session_date (store : Store) : Option ℤ :=
  match store.sessions.map Session.day with
  | [] => none
  | d :: ds => some (ds.foldl min d)

-- --- prepare_daily_features ---

/-- The grouped study query: total minutes of matching sessions on day `d`,
`none` (NaN after alignment) when no matching session fell on `d`. -/
def studyMinutesRaw (sessions : List Session) (d : ℤ) : Cell :=
  let ms := sessions.filter (fun s => s.selected && s.day == d)
  if ms.isEmpty then none
  else some ((ms.map Session.durationSeconds).sum / 60)

/-- The target column after the pre-history fill: on or after the earliest
session date missing study minutes become 0; before it (or when no session
exists at all) they stay NaN. -/
def studyMinutesFilled (store : Store) (d : ℤ) : Cell :=
  match get_earliest_session_date store with
  | none => studyMinutesRaw store.sessions d
  | some e =>
    if e ≤ d then some ((studyMinutesRaw store.sessions d).getD 0)
    else studyMinutesRaw store.sessions d

/-- The seven health columns and their row accessors. -/
def healthFields : List (String × (HealthRow → Cell)) :=
  [("sleep_score", HealthRow.sleep_score),
   ("resting_hr", HealthRow.resting_hr),
   ("body_battery", HealthRow.body_battery),
   ("pulse_ox", HealthRow.pulse_ox),
   ("respiration", HealthRow.respiration),
   ("sleep_duration_seconds", HealthRow.sleep_duration_seconds),
   ("avg_stress", HealthRow.avg_stress)]

/-- Python `name.replace(" ", "_")` used to build `factor_` column names. -/
def sanitizeFactor (name : String) : String :=
  name.map (fun c => if c = ' ' then '_' else c)

/-- `overrides.reindex(date_range, method=ffill).fillna(0)`: the value on day
`d` is the most recent logged override at or before `d`, defaulting to 0 when
no such entry exists.  (`(factor_name, date)` is UNIQUE, so there are no ties.) -/
def factorColValue (log : List (ℤ × ℚ)) (d : ℤ) : Cell :=
  match log.filter (fun e => e.1 ≤ d) with
  | [] => some 0
  | e :: es => some (es.foldl (fun acc x => if acc.1 ≤ x.1 then x else acc) e).2

/-- One custom-factor column: constant 0 when the factor has no log entries at
all, otherwise the forward-filled override series. -/
def factorCol (log : List (ℤ × ℚ)) : Col :=
  if log.isEmpty then fun _ => some 0 else fun d => factorColValue log d

/-- The empty frame on the dense daily index; `day_of_week` (step 5 of the
source) is `day_name()` of the index. -/
def baseFrame (startD endD : ℤ) : Frame :=
  { index := dateRange startD endD, cols := [], dow := dayName }

/-- Step 1 of `prepare_daily_features`: the study target (with the
inaccessible-before-first-session rule). -/
def addStudy (store : Store) (df : Frame) : Frame :=
  df.setCol TARGET_VARIABLE (studyMinutesFilled store)

/-- Step 2 of `prepare_daily_features`: range-restricted health query, then a
left join on date (`date` is the primary key of `health_metrics`, so at most
one row matches a day). -/
def addHealth (store : Store) (startD endD : ℤ) (df : Frame) : Frame :=
  let health := store.health.filter
    (fun r => decide (startD ≤ r.day) && decide (r.day ≤ endD))
  healthFields.foldl
    (fun acc f =>
      acc.setCol f.1 (fun d => (health.find? (fun r => r.day == d)).bind f.2)) df

/-- Step 3 of `prepare_daily_features`: activity aggregates, assigned only when
the range query returned any rows (otherwise these columns are entirely
absent). -/
def addActivities (store : Store) (startD endD : ℤ) (df : Frame) : Frame :=
  let adat := store.activities.filter
    (fun a => decide (startD ≤ a.day) && decide (a.day ≤ endD))
  if adat.isEmpty then df
  else
    let onDay := fun (d : ℤ) => adat.filter (fun a => a.day == d)
    let df := df.setCol "running_minutes" (fun d =>
      let g := adat.filter
        (fun a => containsSub "running" a.activityType.toLower && a.day == d)
      if g.isEmpty then none
      else some ((g.map Activity.durationSeconds).sum / 60))
    let df := df.setCol "distance" (fun d =>
      let g := onDay d
      if g.isEmpty then none
      else some ((g.filterMap Activity.distance).sum))
    let df := df.setCol "activity_count" (fun d =>
      let g := onDay d
      if g.isEmpty then none else some (g.length : ℚ))
    let df := df.setCol "breathwork_sessions" (fun d =>
      let g := adat.filter
        (fun a => containsSub "breathwork" a.activityType.toLower && a.day == d)
      if g.isEmpty then none else some (g.length : ℚ))
    let df := df.setCol "total_activity_minutes" (fun d =>
      let g := onDay d
      if g.isEmpty then none
      else some ((g.map Activity.durationSeconds).sum / 60))
    -- the activity query selects no `calories` column, so the else-branch
    -- constant 0 is always taken
    let df := df.setCol "total_calories" (fun _ => some 0)
    let df := df.setCol "avg_activity_duration_minutes" (fun d =>
      let g := onDay d
      if g.isEmpty then none
      else some ((g.map Activity.durationSeconds).sum / (g.length : ℚ) / 60))
    df

/-- Step 4 of `prepare_daily_features`: one column assignment per registered
custom factor, in registration order. -/
def addFactors (store : Store) (df : Frame) : Frame :=
  store.customFactors.foldl
    (fun acc p => acc.setCol (FACTOR_PREF ++ sanitizeFactor p.1) (factorCol p.2)) df

/-- Step 6 of `prepare_daily_features`: the engine-wide numeric coercion is the
identity on rational cells; then the derived sleep-duration-in-hours column
(`sleep_duration_seconds` is always present after the health join). -/
def addSleepHours (df : Frame) : Frame :=
  df.setCol "sleep_duration_hours"
    (fun d => (df.getCol "sleep_duration_seconds" d).map (fun q => q / 3600))

/-- `prepare_daily_features`: builds the dense daily index and joins/aggregates
every domain onto it, in source order. -/
def prepare_daily_features (store : Store) (startD endD : ℤ) : Frame :=
  addSleepHours (addFactors store
    (addActivities store startD endD
      (addHealth store startD endD
        (addStudy store (baseFrame startD endD)))))

-- --- _get_available_features ---

/-- `_get_available_features`: candidates are the fixed built-in list plus every
column whose name starts with the custom-factor prefix; a candidate is kept iff
it is present in the frame and has at least 10 non-missing values. -/
def get_available_features (df : Frame) : List String :=
  let custom_factor_cols := df.colNames.filter (fun c => startsWithStr FACTOR_PREF c)
  let all_potential_features := POTENTIAL_FEATURE_COLS ++ custom_factor_cols
  all_potential_features.filter
    (fun f => df.hasCol f && decide (10 ≤ df.notnaCount f))

-- --- _prepare_model_data and the inline weekly preparation ---

/-- `series.mean()`: arithmetic mean of the non-missing values over the index. -/
def colMean (df : Frame) (name : String) : ℚ :=
  (df.index.filterMap (fun d => df.getCol name d)).sum / (df.notnaCount name : ℚ)

/-- `model_df[col].fillna(model_df[col].mean())`: missing cells become the
column mean; when the column has no observed value at all the mean itself is
NaN and `fillna` changes nothing. -/
def fillColWithMean (df : Frame) (name : String) : Col := fun d =>
  match df.getCol name d with
  | some v => some v
  | none => if df.notnaCount name = 0 then none else some (colMean df name)

/-- The Imputed-mode modeling table: select `[target, day_of_week] ++ features`
(day-of-week rides along in the `dow` field), mean-fill each feature column,
then drop the rows whose target is missing.  The target itself is never
imputed. -/
def imputedModelDf (df : Frame) (feats : List String) : Frame :=
  let model0 : Frame :=
    { index := df.index
      cols := (TARGET_VARIABLE :: feats).map (fun n => (n, df.getCol n))
      dow := df.dow }
  let filled := feats.foldl (fun acc n => acc.setCol n (fillColWithMean df n)) model0
  { filled with
    index := filled.index.filter (fun d => (filled.getCol TARGET_VARIABLE d).isSome) }

/-- The Strict-mode modeling table: `df.dropna(subset=[target, day_of_week] ++
features)`.  All columns of `df` are kept; only rows are dropped.  The
`day_of_week` column is string-valued and never missing, so it cannot cause a
drop. -/
def strictModelDf (df : Frame) (feats : List String) : Frame :=
  { df with
    index := df.index.filter (fun d =>
      (df.getCol TARGET_VARIABLE d).isSome &&
        feats.all (fun n => (df.getCol n d).isSome)) }

/-- The error text of the daily minimum-row gate
(`f"Not enough overlapping data for a _{data_method}_ analysis. ..."`,
apostrophes written as `\x27`). -/
def dailyGateMsg (dataMethod : String) : String :=
  "Not enough overlapping data for a \x27" ++ dataMethod ++
    "\x27 analysis. Need at least 10 complete days."

/-- The no-available-features error text. -/
def noFeaturesMsg : String :=
  "No single factor had enough data points (min 10) in this period to run an analysis."

/-- The Strict/Imputed branch shared verbatim by `_prepare_model_data` and the
inline weekly preparation: any `data_method` other than `"Imputed"` takes the
Strict branch. -/
def modelDfFor (df : Frame) (dataMethod : String) (feats : List String) : Frame :=
  if dataMethod = "Imputed" then imputedModelDf df feats else strictModelDf df feats

/-- `_prepare_model_data`: availability check, Strict/Imputed table
construction, then the 10-row gate. -/
def prepare_model_data (df : Frame) (dataMethod : String) :
    Except String (Frame × List String) :=
  let feats := get_available_features df
  if feats.isEmpty then .error noFeaturesMsg
  else
    let modelDf := modelDfFor df dataMethod feats
    if modelDf.index.length < 10 then .error (dailyGateMsg dataMethod)
    else .ok (modelDf, feats)

/-- The error text of the weekly minimum-row gate. -/
def weeklyGateMsg : String :=
  "Not enough weekly data for a meaningful analysis (need >=4 weeks)."

/-- The inline feature-availability and data-preparation steps of
`run_weekly_analysis` (source lines 252-269): same Strict/Imputed table
construction as `_prepare_model_data`, but with no zero-features check and a
4-row (week) gate. -/
def weekly_prepare_model_data (df : Frame) (dataMethod : String) :
    Except String Frame :=
  let feats := get_available_features df
  let modelDf := modelDfFor df dataMethod feats
  if modelDf.index.length < 4 then .error weeklyGateMsg
  else .ok modelDf

/-- Refinement reference, following the words of the specification and claim:
`_prepare_model_data` "with the 10-row daily gate replaced by a 4-week gate"
(keeping the distinct no-features failure, which the spec says the weekly path
hits immediately when zero candidates clear the availability filter). -/
def prepare_model_data_gate4Spec (df : Frame) (dataMethod : String) :
    Except String (Frame × List String) :=
  let feats := get_available_features df
  if feats.isEmpty then .error noFeaturesMsg
  else
    let modelDf := modelDfFor df dataMethod feats
    if modelDf.index.length < 4 then .error weeklyGateMsg
    else .ok (modelDf, feats)

/-- Whether a result dictionary is an `{error: ...}` payload. -/
def isErrB {α : Type} : Except String α → Bool
  | .error _ => true
  | .ok _ => false

-- --- compute_rolling_features ---

/-- The fixed list of rollable columns of `compute_rolling_features`. -/
def ROLLABLE_COLS : List String :=
  ["sleep_score", "resting_hr", "body_battery", "avg_stress",
   "total_study_minutes", "running_minutes", "distance",
   "total_activity_minutes", "intensity_minutes", "hydration_ml"]

/-- The trailing window of positions `max(0, i+1-w) .. i` of a value list. -/
def windowSlice (vals : List Cell) (w i : ℕ) : List Cell :=
  (vals.take (i + 1)).drop (i + 1 - w)

/-- Rolling mean at position `i`: mean of the non-missing values in the
trailing window, emitted only when at least `max(m, 1)` observations are
present (pandas also leaves the mean of an empty window NaN). -/
def rollMeanAt (vals : List Cell) (w m i : ℕ) : Cell :=
  let obs := (windowSlice vals w i).filterMap id
  if m ≤ obs.length ∧ 0 < obs.length then some (obs.sum / (obs.length : ℚ))
  else none

/-- Rolling sum at position `i`, emitted when at least `m` observations are
present. -/
def rollSumAt (vals : List Cell) (w m i : ℕ) : Cell :=
  let obs := (windowSlice vals w i).filterMap id
  if m ≤ obs.length then some obs.sum else none

/-- The values of column `name` in index order. -/
def Frame.colVals (df : Frame) (name : String) : List Cell :=
  df.index.map (df.getCol name)

/-- The position of date `d` in the index (rolling results stay aligned on the
frame's own index, so a date's rolling value lives at the date's position). -/
def posOf : List ℤ → ℤ → Option ℕ
  | [], _ => none
  | x :: xs, d => if x = d then some 0 else (posOf xs d).map (· + 1)

/-- The date-keyed rolling-mean column `{col}_roll{w}_mean`. -/
def rollMeanCol (df : Frame) (name : String) (w m : ℕ) : Col := fun d =>
  match posOf df.index d with
  | none => none
  | some i => rollMeanAt (df.colVals name) w m i

/-- The date-keyed rolling-sum column `{col}_roll{w}_sum`. -/
def rollSumCol (df : Frame) (name : String) (w m : ℕ) : Col := fun d =>
  match posOf df.index d with
  | none => none
  | some i => rollSumAt (df.colVals name) w m i

/-- `new_columns[f_mean].shift(w)`: the lag column `{col}_lag{w}_mean` — the
rolling mean of the same column, `w` positions earlier. -/
def lagMeanCol (df : Frame) (name : String) (w m : ℕ) : Col := fun d =>
  match posOf df.index d with
  | none => none
  | some i => if w ≤ i then rollMeanAt (df.colVals name) w m (i - w) else none

/-- The dictionary entries accumulated by `compute_rolling_features` in
iteration order: for every window and every rollable column present in the
frame, the rolling mean, rolling sum, and lagged rolling mean.  The rolling
standard deviation of the source involves a square root, which has no rational
value; no claim concerns it and it is not modelled. -/
def rollEntries (df : Frame) (windows : List ℕ) (m : ℕ) : List (String × Col) :=
  windows.flatMap (fun w =>
    (ROLLABLE_COLS.filter df.hasCol).flatMap (fun c =>
      [(c ++ "_roll" ++ toString w ++ "_mean", rollMeanCol df c w m),
       (c ++ "_roll" ++ toString w ++ "_sum", rollSumCol df c w m),
       (c ++ "_lag" ++ toString w ++ "_mean", lagMeanCol df c w m)]))

/-- Python-dict collapse of the accumulated entries: first-insertion order,
last value wins per key. -/
def dictOf (l : List (String × Col)) : List (String × Col) :=
  l.foldl (fun acc e => setColAux acc e.1 e.2) []

/-- `compute_rolling_features`: all new columns are collected into a dict and
concatenated onto the frame once. -/
def compute_rolling_features (df : Frame) (windows : List ℕ) (m : ℕ) : Frame :=
  { df with cols := df.cols ++ dictOf (rollEntries df windows m) }

-- --- _prepare_model_matrices and the model runners ---

/-- A pandas column dtype, as far as `select_dtypes` cares. -/
inductive Dtype where
  | float
  | int
  | obj
deriving DecidableEq

/-- `select_dtypes(include=number)` keeps float and integer columns. -/
def Dtype.isNumeric : Dtype → Bool
  | .float => true
  | .int => true
  | .obj => false

/-- A column of the design matrix `X`: name, dtype and values. -/
structure MCol where
  name : String
  dtype : Dtype
  vals : Col

/-- Lexicographic string comparison (pandas sorts categories by code point). -/
def strLeB (a b : String) : Bool := a == b || decide (a.data < b.data)

/-- The sorted unique categories of the day-of-week series
(`pd.get_dummies` sorts the observed values; the sort is stable). -/
def sortedUniqueDays (df : Frame) : List String :=
  List.insertionSort (fun a b => strLeB a b = true) ((df.index.map df.dow).dedup)

/-- `pd.get_dummies(model_df[day_of_week], drop_first=True, dtype=int)`:
one 0/1 integer column per observed weekday name, alphabetically first
category dropped. -/
def dayDummies (df : Frame) : List MCol :=
  (sortedUniqueDays df).drop 1 |>.map (fun nm =>
    { name := nm, dtype := .int,
      vals := fun d => if df.dow d = nm then some 1 else some 0 })

/-- `_prepare_model_matrices`: `X = model_df[features].join(day_dummies)`.
`featDtype` records the (numeric) dtype each feature column carries after the
engine-wide `pd.to_numeric` coercion. -/
def prepare_model_matrices (df : Frame) (feats : List String)
    (featDtype : String → Dtype) : List MCol :=
  feats.map (fun f => { name := f, dtype := featDtype f, vals := df.getCol f }) ++
    dayDummies df

/-- `_is_day_of_week_feature`: the name contains one of the three-letter day
abbreviations as a substring. -/
def is_day_of_week_feature (name : String) : Bool :=
  DAYS_OF_WEEK.any (fun day => containsSub day name)

/-- A fitted parameter of the OLS model: one entry of `model.pvalues` /
`model.params`. -/
structure FittedParam where
  name : String
  coef : ℚ
  p_value : ℚ
deriving DecidableEq

/-- A factor entry of the result lists.  The source also carries a templated
`insight` display string (a rounding of the coefficient); no claim concerns it
and it is not modelled. -/
structure FactorData where
  name : String
  coefficient : ℚ
  p_value : ℚ
deriving DecidableEq

/-- `_get_display_name`: strip the custom-factor prefix, underscores to
spaces.  (Python `str.title()` recapitalizes words; capitalization does not
matter to any claim and is not modelled.) -/
def get_display_name (factor : String) : String :=
  (factor.replace FACTOR_PREF "").map (fun c => if c = '_' then ' ' else c)

/-- The factor-loop filter of `run_standard_ols_analysis`: the intercept and
every day-of-week-named parameter are skipped. -/
def olsKeep (p : FittedParam) : Bool :=
  !(p.name.toLower == "const" || is_day_of_week_feature p.name)

def mkFactorData (p : FittedParam) : FactorData :=
  { name := get_display_name p.name, coefficient := p.coef, p_value := p.p_value }

/-- `run_standard_ols_analysis`, factor-list part: iterate over the fitted
parameters, skip the intercept and day-of-week dummies, partition by
`p < 0.05`, and sort the significant list by absolute coefficient descending
(stable, as Python's sort). -/
def run_standard_ols_analysis (fitted : List FittedParam) :
    List FactorData × List FactorData :=
  let kept := fitted.filter olsKeep
  let significant := (kept.filter (fun p => decide (p.p_value < 5 / 100))).map mkFactorData
  let insignificant := (kept.filter (fun p => !decide (p.p_value < 5 / 100))).map mkFactorData
  (List.insertionSort (fun a b => |b.coefficient| ≤ |a.coefficient|) significant,
    insignificant)

/-- A factor entry of the Lasso result lists (no p-value; the `insight`
display string is again not modelled). -/
structure LassoData where
  name : String
  coefficient : ℚ
deriving DecidableEq

def mkLassoData (p : String × ℚ) : LassoData :=
  { name := get_display_name p.1, coefficient := p.2 }

/-- `run_lasso_analysis`, factor-list part: iterate over the design-matrix
columns paired with the fitted coefficients, skip day-of-week dummies, select
iff `|coef| > 1e-6`, and sort the selected list by absolute coefficient
descending. -/
def run_lasso_analysis (pairs : List (String × ℚ)) :
    List LassoData × List LassoData :=
  let kept := pairs.filter (fun p => !is_day_of_week_feature p.1)
  let selected :=
    (kept.filter (fun p => decide (1 / 1000000 < |p.2|))).map mkLassoData
  let eliminated :=
    (kept.filter (fun p => !decide (1 / 1000000 < |p.2|))).map mkLassoData
  (List.insertionSort (fun a b => |b.coefficient| ≤ |a.coefficient|) selected,
    eliminated)

/-- `run_pca_analysis`, matrix-selection part:
`X_numeric = X.select_dtypes(include=number)` — the matrix the PCA is fit on. -/
def pcaInputCols (df : Frame) (feats : List String)
    (featDtype : String → Dtype) : List MCol :=
  (prepare_model_matrices df feats featDtype).filter (fun c => c.dtype.isNumeric)

/-- The component column names `PC_1 .. PC_n`. -/
def pcNames (n : ℕ) : List String :=
  (List.range n).map (fun i => "PC_" ++ toString (i + 1))

/-- `run_pca_analysis`, regression-design part: the OLS after PCA is fit on
`add_constant(pc_df)` — the constant and the component columns only. -/
def pcaRegressionDesign (n : ℕ) : List String :=
  "const" :: pcNames n

/-! ### Concrete inputs used by the witnesses and counterexamples -/

/-- An entirely empty store: no domain has any data. -/
def emptyStore : Store := ⟨[], [], [], []⟩

/-- A 30-day frame with a feature observed on exactly 9 days and another
observed on exactly 10 days. -/
def exFrameC4 : Frame :=
  { index := dateRange 0 29
    cols := [("sleep_score", fun d => if d < 9 then some 1 else none),
             ("avg_stress", fun d => if d < 10 then some 1 else none)]
    dow := dayName }

/-- A store with two sessions: the earliest on day 2 (matching the session
filter), a second on day 5 that the filter rejects. -/
def exStoreC1 : Store :=
  { sessions := [⟨2, 600, true⟩, ⟨5, 1200, false⟩]
    health := []
    activities := []
    customFactors := [] }

/-- An 11-day frame whose target is missing on one day and whose single
feature is fully observed but for one missing value. -/
def exFrameC3 : Frame :=
  { index := dateRange 0 10
    cols := [(TARGET_VARIABLE, fun d => if d = 4 then none else some 30),
             ("sleep_score", fun d => if d = 6 then none else some 80)]
    dow := dayName }

/-- A 12-day frame: the single available feature is observed on days 0-9
(10 values), the target is missing on day 0, so exactly 9 complete rows
(days 1-9) survive the Strict drop. -/
def exFrameC5nine : Frame :=
  { index := dateRange 0 11
    cols := [(TARGET_VARIABLE, fun d => if d = 0 then none else some 30),
             ("sleep_score", fun d => if d < 10 then some 80 else none)]
    dow := dayName }

/-- An 11-day frame: the feature is observed on days 0-9, the target always,
so exactly 10 complete rows survive. -/
def exFrameC5ten : Frame :=
  { index := dateRange 0 10
    cols := [(TARGET_VARIABLE, fun _ => some 30),
             ("sleep_score", fun d => if d < 10 then some 80 else none)]
    dow := dayName }

/-- A 3-day frame with no candidate feature columns at all (3 usable rows). -/
def exFrameC5weekly : Frame :=
  { index := dateRange 0 2
    cols := [(TARGET_VARIABLE, fun _ => some 30)]
    dow := dayName }

/-- A 5-day frame with a target but no candidate feature column: zero
features clear the availability filter. -/
def exFrameC6 : Frame :=
  { index := dateRange 0 4
    cols := [(TARGET_VARIABLE, fun _ => some 30)]
    dow := dayName }

/-- A store whose only data is one registered custom factor with an empty
override log. -/
def exStoreC10 : Store := ⟨[], [], [], [("Late Night", [])]⟩

/-- A 5-day frame with one fully observed rollable column. -/
def exFrameC8 : Frame :=
  { index := dateRange 0 4
    cols := [("sleep_score", fun d => some (d : ℚ))]
    dow := dayName }

/-- A 14-day frame with target and one numeric feature; all seven weekday
dummies arise. -/
def exFrameC7 : Frame :=
  { index := dateRange 0 13
    cols := [(TARGET_VARIABLE, fun _ => some 30),
             ("sleep_score", fun d => some (d : ℚ))]
    dow := dayName }

/-- The feature list of the C9 witness: one custom factor whose name contains
`Mon` without being a weekday dummy. -/
def featsC9 : List String := ["factor_Monthly_review"]

/-- The fitted parameters of the C9 witness: one per design column plus the
intercept (coefficient and p-value values are irrelevant to the filter). -/
def fittedC9 : List FittedParam :=
  ⟨"const", 0, 0⟩ ::
    (prepare_model_matrices exFrameC7 featsC9 (fun _ => Dtype.float)).map
      (fun c => ⟨c.name, 1, 1 / 100⟩)

/-- The Lasso coefficient pairs of the C9 witness. -/
def pairsC9 : List (String × ℚ) :=
  (prepare_model_matrices exFrameC7 featsC9 (fun _ => Dtype.float)).map
    (fun c => (c.name, 1))

/-! ### Frame lemmas -/

theorem index_setCol (df : Frame) (n : String) (v : Col) :
    (df.setCol n v).index = df.index := rfl

theorem dow_setCol (df : Frame) (n : String) (v : Col) :
    (df.setCol n v).dow = df.dow := rfl

theorem find?_setColAux (cs : List (String × Col)) (m k : String) (v : Col) :
    (setColAux cs m v).find? (fun c => c.1 == k) =
      if m = k then
        match cs.find? (fun c => c.1 == k) with
        | some _ => some (m, v)
        | none => some (m, v)
      else cs.find? (fun c => c.1 == k) := by
  induction cs with
  | nil =>
    by_cases h : m = k
    · simp [setColAux, List.find?, h]
    · simp [setColAux, List.find?, h, show (m == k) = false by simp [h]]
  | cons c cs ih =>
    by_cases hcm : c.1 = m
    · by_cases hmk : m = k
      · subst hmk
        simp [setColAux, hcm, List.find?]
      · simp only [setColAux, hcm, if_pos rfl, if_neg hmk]
        have hck : (c.1 == k) = false := by
          simp [hcm, hmk]
        simp [List.find?, hck, show (m == k) = false by simp [hmk]]
    · simp only [setColAux, if_neg hcm]
      by_cases hck : c.1 = k
      · have hmk : ¬ m = k := fun h => hcm (h ▸ hck)
        simp [List.find?, hck, hmk]
      · simp only [List.find?_cons, show (c.1 == k) = false by simp [hck]]
        exact ih

theorem getCol_setCol (df : Frame) (m k : String) (v : Col) :
    (df.setCol m v).getCol k = if m = k then v else df.getCol k := by
  unfold Frame.setCol Frame.getCol
  rw [find?_setColAux]
  by_cases h : m = k
  · subst h
    simp only [if_pos rfl]
    cases df.cols.find? (fun c => c.1 == m) <;> rfl
  · simp [h]

theorem getCol_setCol_self (df : Frame) (m : String) (v : Col) :
    (df.setCol m v).getCol m = v := by
  rw [getCol_setCol]; simp

theorem getCol_setCol_ne (df : Frame) (m k : String) (v : Col) (h : m ≠ k) :
    (df.setCol m v).getCol k = df.getCol k := by
  rw [getCol_setCol]; simp [h]

theorem mem_colNames_setCol (df : Frame) (m k : String) (v : Col) :
    k ∈ (df.setCol m v).colNames ↔ k = m ∨ k ∈ df.colNames := by
  show k ∈ (setColAux df.cols m v).map Prod.fst ↔ _
  unfold Frame.colNames
  induction df.cols with
  | nil => simp [setColAux]
  | cons c cs ih =>
    by_cases hcm : c.1 = m
    · subst hcm
      have hred : setColAux (c :: cs) c.1 v = (c.1, v) :: cs := by
        simp [setColAux]
      rw [hred]
      simp only [List.map_cons, List.mem_cons]
      tauto
    · simp only [setColAux, if_neg hcm, List.map_cons, List.mem_cons] at ih ⊢
      tauto

theorem hasCol_iff_mem (df : Frame) (k : String) :
    df.hasCol k = true ↔ k ∈ df.colNames := by
  unfold Frame.hasCol Frame.colNames
  simp only [List.any_eq_true, beq_iff_eq, List.mem_map]

/-- Generic shape of the engine's column-assignment folds. -/
theorem getCol_foldl_setCol {α : Type} (l : List α) (nm : α → String) (v : α → Col)
    (df : Frame) (k : String) :
    (l.foldl (fun acc x => acc.setCol (nm x) (v x)) df).getCol k =
      match l.reverse.find? (fun x => nm x == k) with
      | some x => v x
      | none => df.getCol k := by
  induction l generalizing df with
  | nil => rfl
  | cons x xs ih =>
    simp only [List.foldl_cons, List.reverse_cons, List.find?_append, ih]
    cases hfind : xs.reverse.find? (fun x => nm x == k) with
    | some y => rfl
    | none =>
      rw [getCol_setCol]
      by_cases hx : nm x = k
      · simp [List.find?, hx]
      · simp [List.find?, hx, show (nm x == k) = false by simp [hx]]

theorem index_foldl_setCol {α : Type} (l : List α) (nm : α → String) (v : α → Col)
    (df : Frame) :
    (l.foldl (fun acc x => acc.setCol (nm x) (v x)) df).index = df.index := by
  induction l generalizing df with
  | nil => rfl
  | cons x xs ih => simpa using ih (df.setCol (nm x) (v x))

/-! ### Structural lemmas about the feature assembler -/

theorem factorName_ne {x t : String} (ht : startsWithStr FACTOR_PREF t = false) :
    FACTOR_PREF ++ x ≠ t := by
  intro h
  have h1 : startsWithStr FACTOR_PREF (FACTOR_PREF ++ x) = true := by
    unfold startsWithStr
    rw [String.data_append]
    simp [List.prefix_append]
  rw [h, ht] at h1
  cases h1

theorem index_addStudy (store : Store) (df : Frame) :
    (addStudy store df).index = df.index := rfl

theorem index_addHealth (store : Store) (s e : ℤ) (df : Frame) :
    (addHealth store s e df).index = df.index :=
  index_foldl_setCol _ _ _ _

theorem index_addActivities (store : Store) (s e : ℤ) (df : Frame) :
    (addActivities store s e df).index = df.index := by
  unfold addActivities
  dsimp only
  split <;> rfl

theorem index_addFactors (store : Store) (df : Frame) :
    (addFactors store df).index = df.index :=
  index_foldl_setCol _ _ _ _

theorem index_addSleepHours (df : Frame) :
    (addSleepHours df).index = df.index := rfl

theorem index_prepare_daily (store : Store) (s e : ℤ) :
    (prepare_daily_features store s e).index = dateRange s e := by
  unfold prepare_daily_features
  rw [index_addSleepHours, index_addFactors, index_addActivities, index_addHealth,
    index_addStudy]
  rfl

theorem length_dateRange {s e : ℤ} (h : s ≤ e) :
    (dateRange s e).length = (e - s).toNat + 1 := by
  unfold dateRange
  rw [List.length_map, List.length_range]
  omega

theorem nodup_dateRange (s e : ℤ) : (dateRange s e).Nodup := by
  unfold dateRange
  refine List.Nodup.map ?_ (List.nodup_range _)
  intro a b hab
  simp only [Int.ofNat_eq_coe] at hab
  omega

theorem mem_dateRange {s e d : ℤ} : d ∈ dateRange s e ↔ s ≤ d ∧ d ≤ e := by
  unfold dateRange
  simp only [List.mem_map, List.mem_range, Int.ofNat_eq_coe]
  constructor
  · rintro ⟨i, hi, rfl⟩
    omega
  · rintro ⟨h1, h2⟩
    exact ⟨(d - s).toNat, by omega, by omega⟩

/-! ### Claim C2 -/

/-- C2: for every `start_date ≤ end_date`, the frame returned by
`prepare_daily_features` has exactly `(end - start).days + 1` rows, one per
calendar date of the closed interval, with no duplicate dates and no gaps,
regardless of which underlying domains (sessions, health, activities, custom
factors) have any data. -/
theorem C2_date_range_completeness (store : Store) (s e : ℤ) (h : s ≤ e) :
    (prepare_daily_features store s e).index.length = (e - s).toNat + 1 ∧
    (prepare_daily_features store s e).index.Nodup ∧
    ∀ d : ℤ, d ∈ (prepare_daily_features store s e).index ↔ s ≤ d ∧ d ≤ e := by
  rw [index_prepare_daily]
  exact ⟨length_dateRange h, nodup_dateRange s e, fun d => mem_dateRange⟩

/-- Witness for C2 at a concrete 30-day range over the empty store. -/
theorem C2_date_range_completeness_witness :
    (prepare_daily_features emptyStore 0 29).index.length = 30 ∧
    (prepare_daily_features emptyStore 0 29).index.Nodup ∧
    ((7 : ℤ) ∈ (prepare_daily_features emptyStore 0 29).index ∧
      (30 : ℤ) ∉ (prepare_daily_features emptyStore 0 29).index) := by
  have h := C2_date_range_completeness emptyStore 0 29 (by decide)
  refine ⟨by simpa using h.1, h.2.1, ?_, ?_⟩
  · exact (h.2.2 7).mpr (by decide)
  · intro hmem
    have := (h.2.2 30).mp hmem
    omega

/-! ### Claim C4 -/

/-- Shared characterization of the availability filter. -/
theorem mem_available_iff (df : Frame) (f : String)
    (hcand : f ∈ POTENTIAL_FEATURE_COLS ∨ startsWithStr FACTOR_PREF f = true) :
    f ∈ get_available_features df ↔
      df.hasCol f = true ∧ 10 ≤ df.notnaCount f := by
  unfold get_available_features
  constructor
  · intro hmem
    have h := (List.mem_filter.mp hmem).2
    simp only [Bool.and_eq_true, decide_eq_true_eq] at h
    exact h
  · rintro ⟨h1, h2⟩
    refine List.mem_filter.mpr ⟨?_, by simp [h1, h2]⟩
    rcases hcand with hc | hc
    · exact List.mem_append.mpr (Or.inl hc)
    · refine List.mem_append.mpr (Or.inr ?_)
      exact List.mem_filter.mpr ⟨(hasCol_iff_mem df f).mp h1, hc⟩

/-- C4: a candidate column (a name in the fixed 14-name built-in list or any
column starting with the `factor_` prefix) is in the list returned by
`_get_available_features` if and only if it is present in the frame and has at
least 10 non-missing values. -/
theorem C4_availability_threshold (df : Frame) (f : String)
    (hcand : f ∈ POTENTIAL_FEATURE_COLS ∨ startsWithStr FACTOR_PREF f = true) :
    f ∈ get_available_features df ↔
      df.hasCol f = true ∧ 10 ≤ df.notnaCount f :=
  mem_available_iff df f hcand

/-- Witness for C4: over a 30-day range, exactly 9 non-missing values are
excluded and exactly 10 are included. -/
theorem C4_availability_threshold_witness :
    "sleep_score" ∉ get_available_features exFrameC4 ∧
    "avg_stress" ∈ get_available_features exFrameC4 := by
  constructor
  · intro hmem
    have h := (C4_availability_threshold exFrameC4 "sleep_score"
      (Or.inl (by decide))).mp hmem
    have h9 : ¬ (10 ≤ exFrameC4.notnaCount "sleep_score") := by decide
    exact h9 h.2
  · exact (C4_availability_threshold exFrameC4 "avg_stress"
      (Or.inl (by decide))).mpr (by decide)

/-! ### Column lookups through the assembler stages -/

theorem getCol_addStudy_ne (store : Store) (df : Frame) (k : String)
    (hk : TARGET_VARIABLE ≠ k) :
    (addStudy store df).getCol k = df.getCol k :=
  getCol_setCol_ne _ _ _ _ hk

theorem getCol_addHealth_ne (store : Store) (s e : ℤ) (df : Frame) (k : String)
    (hk : k ∉ healthFields.map Prod.fst) :
    (addHealth store s e df).getCol k = df.getCol k := by
  unfold addHealth
  dsimp only
  rw [getCol_foldl_setCol]
  have hnone : healthFields.reverse.find? (fun f => f.1 == k) = none := by
    rw [List.find?_eq_none]
    intro p hp
    rw [List.mem_reverse] at hp
    simp only [beq_iff_eq]
    intro hpk
    exact hk (hpk ▸ List.mem_map_of_mem Prod.fst hp)
  rw [hnone]

theorem getCol_addActivities_ne (store : Store) (s e : ℤ) (df : Frame) (k : String)
    (hk : k ∉ ["running_minutes", "distance", "activity_count",
      "breathwork_sessions", "total_activity_minutes", "total_calories",
      "avg_activity_duration_minutes"]) :
    (addActivities store s e df).getCol k = df.getCol k := by
  have h1 : "running_minutes" ≠ k := by rintro rfl; exact hk (by simp)
  have h2 : "distance" ≠ k := by rintro rfl; exact hk (by simp)
  have h3 : "activity_count" ≠ k := by rintro rfl; exact hk (by simp)
  have h4 : "breathwork_sessions" ≠ k := by rintro rfl; exact hk (by simp)
  have h5 : "total_activity_minutes" ≠ k := by rintro rfl; exact hk (by simp)
  have h6 : "total_calories" ≠ k := by rintro rfl; exact hk (by simp)
  have h7 : "avg_activity_duration_minutes" ≠ k := by rintro rfl; exact hk (by simp)
  unfold addActivities
  dsimp only
  split
  · rfl
  · rw [getCol_setCol_ne _ _ _ _ h7, getCol_setCol_ne _ _ _ _ h6,
      getCol_setCol_ne _ _ _ _ h5, getCol_setCol_ne _ _ _ _ h4,
      getCol_setCol_ne _ _ _ _ h3, getCol_setCol_ne _ _ _ _ h2,
      getCol_setCol_ne _ _ _ _ h1]

theorem getCol_addFactors_not_factor (store : Store) (df : Frame) (k : String)
    (hk : startsWithStr FACTOR_PREF k = false) :
    (addFactors store df).getCol k = df.getCol k := by
  unfold addFactors
  rw [getCol_foldl_setCol]
  have hnone : store.customFactors.reverse.find?
      (fun p => (FACTOR_PREF ++ sanitizeFactor p.1) == k) = none := by
    rw [List.find?_eq_none]
    intro p _hp
    simp only [beq_iff_eq]
    exact factorName_ne hk
  rw [hnone]

theorem getCol_addSleepHours_ne (df : Frame) (k : String)
    (hk : "sleep_duration_hours" ≠ k) :
    (addSleepHours df).getCol k = df.getCol k :=
  getCol_setCol_ne _ _ _ _ hk

/-- The assembled frame's target column is exactly the filled study series. -/
theorem getCol_prepare_target (store : Store) (s e : ℤ) :
    (prepare_daily_features store s e).getCol TARGET_VARIABLE =
      studyMinutesFilled store := by
  unfold prepare_daily_features
  rw [getCol_addSleepHours_ne _ _ (by decide),
    getCol_addFactors_not_factor _ _ _ (by decide),
    getCol_addActivities_ne _ _ _ _ _ (by decide),
    getCol_addHealth_ne _ _ _ _ _ (by decide)]
  unfold addStudy
  exact getCol_setCol_self _ _ _

/-! ### Claim C1 -/

theorem foldl_min_le (d : ℤ) (ds : List ℤ) :
    ∀ x ∈ d :: ds, ds.foldl min d ≤ x := by
  induction ds generalizing d with
  | nil =>
    intro x hx
    simp only [List.mem_singleton] at hx
    subst hx
    exact le_refl _
  | cons a as ih =>
    intro x hx
    have hbase := ih (min d a)
    rw [List.foldl_cons]
    rcases List.mem_cons.mp hx with rfl | hx2
    · exact le_trans (hbase (min x a) (by simp)) (min_le_left _ _)
    · rcases List.mem_cons.mp hx2 with rfl | hx3
      · exact le_trans (hbase (min d x) (by simp)) (min_le_right _ _)
      · exact hbase x (by simp [hx3])

/-- The earliest session date is a lower bound on every session's day. -/
theorem earliest_le {store : Store} {D : ℤ}
    (h : get_earliest_session_date store = some D) :
    ∀ sess ∈ store.sessions, D ≤ sess.day := by
  intro sess hsess
  have hmem : sess.day ∈ store.sessions.map Session.day :=
    List.mem_map_of_mem _ hsess
  unfold get_earliest_session_date at h
  cases hml : store.sessions.map Session.day with
  | nil => rw [hml] at hmem; cases hmem
  | cons d ds =>
    rw [hml] at h hmem
    have hD : ds.foldl min d = D := by
      injection h
    exact hD ▸ foldl_min_le d ds sess.day hmem

/-- C1: for a store whose earliest recorded session (globally) falls on day
`D`, the assembled frame's `total_study_minutes` is NaN on every queried date
strictly before `D`, and a non-negative number — 0 on days with no matching
sessions — on every queried date on or after `D`. -/
theorem C1_target_prehistory (store : Store) (s e D : ℤ)
    (hD : get_earliest_session_date store = some D)
    (hdur : ∀ sess ∈ store.sessions, 0 ≤ sess.durationSeconds) :
    ∀ d ∈ (prepare_daily_features store s e).index,
      (d < D → (prepare_daily_features store s e).getCol TARGET_VARIABLE d = none) ∧
      (D ≤ d → ∃ q : ℚ,
        (prepare_daily_features store s e).getCol TARGET_VARIABLE d = some q ∧
        0 ≤ q ∧
        ((∀ sess ∈ store.sessions, sess.selected = true → sess.day ≠ d) → q = 0)) := by
  intro d _hd
  rw [getCol_prepare_target]
  unfold studyMinutesFilled
  rw [hD]
  dsimp only
  constructor
  · intro hdD
    have hraw : studyMinutesRaw store.sessions d = none := by
      unfold studyMinutesRaw
      have hnil : store.sessions.filter (fun sess => sess.selected && sess.day == d) = [] := by
        rw [List.filter_eq_nil_iff]
        intro sess hs
        simp only [Bool.and_eq_true, beq_iff_eq, not_and]
        intro _ hday
        have := earliest_le hD sess hs
        omega
      simp [hnil]
    rw [if_neg (by omega)]
    exact hraw
  · intro hDd
    rw [if_pos hDd]
    refine ⟨(studyMinutesRaw store.sessions d).getD 0, rfl, ?_, ?_⟩
    · unfold studyMinutesRaw
      dsimp only
      by_cases hfe :
        (store.sessions.filter (fun sess => sess.selected && sess.day == d)).isEmpty = true
      · simp [hfe]
      · rw [if_neg hfe, Option.getD_some]
        apply div_nonneg _ (by norm_num)
        apply List.sum_nonneg
        intro x hx
        rw [List.mem_map] at hx
        obtain ⟨sess, hsess, rfl⟩ := hx
        exact hdur sess (List.mem_of_mem_filter hsess)
    · intro hnone
      unfold studyMinutesRaw
      have hnil : store.sessions.filter (fun sess => sess.selected && sess.day == d) = [] := by
        rw [List.filter_eq_nil_iff]
        intro sess hs
        simp only [Bool.and_eq_true, beq_iff_eq, not_and]
        intro hsel hday
        exact hnone sess hs hsel hday
      simp [hnil]

/-- Witness for C1 over the queried range `[0, 6]`: day 1 (before the earliest
session, day 2) is NaN, and day 3 (after it, with no matching session) is 0. -/
theorem C1_target_prehistory_witness :
    (prepare_daily_features exStoreC1 0 6).getCol TARGET_VARIABLE 1 = none ∧
    (prepare_daily_features exStoreC1 0 6).getCol TARGET_VARIABLE 3 = some 0 := by
  have h := C1_target_prehistory exStoreC1 0 6 2 (by decide) (by decide)
  constructor
  · exact (h 1 (by decide)).1 (by norm_num)
  · obtain ⟨q, hq, _h0, hz⟩ := (h 3 (by decide)).2 (by norm_num)
    rw [hz (by decide)] at hq
    exact hq

/-! ### Model-data preparation lemmas -/

theorem available_hasCol {df : Frame} {f : String}
    (h : f ∈ get_available_features df) : df.hasCol f = true := by
  have h2 := (List.mem_filter.mp h).2
  simp only [Bool.and_eq_true, decide_eq_true_eq] at h2
  exact h2.1

theorem available_count {df : Frame} {f : String}
    (h : f ∈ get_available_features df) : 10 ≤ df.notnaCount f := by
  have h2 := (List.mem_filter.mp h).2
  simp only [Bool.and_eq_true, decide_eq_true_eq] at h2
  exact h2.2

theorem target_not_available (df : Frame) :
    TARGET_VARIABLE ∉ get_available_features df := by
  intro h
  have h1 := (List.mem_filter.mp h).1
  rcases List.mem_append.mp h1 with h2 | h2
  · exact absurd h2 (by decide)
  · have := (List.mem_filter.mp h2).2
    exact absurd this (by decide)

/-- Column lookup in a `df[names]` projection. -/
theorem getCol_selectCols (df : Frame) (names : List String) (k : String) :
    (Frame.mk df.index (names.map (fun n => (n, df.getCol n))) df.dow).getCol k =
      if k ∈ names then df.getCol k else (fun _ => none) := by
  induction names with
  | nil => simp [Frame.getCol, List.find?]
  | cons n ns ih =>
    by_cases hnk : n = k
    · subst hnk
      simp [Frame.getCol, List.find?_cons]
    · have hne : (n == k) = false := by simp [hnk]
      have step :
          (Frame.mk df.index ((n :: ns).map (fun n => (n, df.getCol n))) df.dow).getCol k =
            (Frame.mk df.index (ns.map (fun n => (n, df.getCol n))) df.dow).getCol k := by
        simp [Frame.getCol, List.find?_cons, hne]
      rw [step, ih]
      by_cases hk : k ∈ ns
      · rw [if_pos hk, if_pos (List.mem_cons_of_mem _ hk)]
      · rw [if_neg hk, if_neg]
        intro hmem
        rcases List.mem_cons.mp hmem with rfl | h
        · exact hnk rfl
        · exact hk h

/-- `Frame.getCol` ignores the index, so re-indexing a frame keeps lookups. -/
theorem getCol_index_update (df : Frame) (idx : List ℤ) (k : String) :
    (Frame.mk idx df.cols df.dow).getCol k = df.getCol k := rfl

/-- Re-indexing a frame keeps its column names. -/
theorem colNames_index_update (df : Frame) (idx : List ℤ) :
    (Frame.mk idx df.cols df.dow).colNames = df.colNames := rfl

/-- The mean-fill fold of `_prepare_model_data`, resolved per column. -/
theorem getCol_foldl_fill (feats' : List String) (df model0 : Frame) (k : String) :
    (feats'.foldl (fun acc n => acc.setCol n (fillColWithMean df n)) model0).getCol k =
      if k ∈ feats' then fillColWithMean df k else model0.getCol k := by
  rw [getCol_foldl_setCol feats' (fun n => n) (fun n => fillColWithMean df n) model0 k]
  cases hfind : feats'.reverse.find? (fun n => n == k) with
  | some n =>
    have hn : n = k := by simpa using List.find?_some hfind
    subst hn
    rw [if_pos (List.mem_reverse.mp (List.mem_of_find?_eq_some hfind))]
  | none =>
    rw [if_neg]
    intro hk
    have := List.find?_eq_none.mp hfind k (List.mem_reverse.mpr hk)
    simp at this

theorem index_imputedModelDf (df : Frame) (feats : List String)
    (hT : TARGET_VARIABLE ∉ feats) :
    (imputedModelDf df feats).index =
      df.index.filter (fun d => (df.getCol TARGET_VARIABLE d).isSome) := by
  unfold imputedModelDf
  dsimp only
  rw [index_foldl_setCol, getCol_foldl_fill, if_neg hT, getCol_selectCols,
    if_pos (by simp)]

theorem getCol_imputedModelDf_target (df : Frame) (feats : List String)
    (hT : TARGET_VARIABLE ∉ feats) :
    (imputedModelDf df feats).getCol TARGET_VARIABLE =
      df.getCol TARGET_VARIABLE := by
  unfold imputedModelDf
  dsimp only
  rw [getCol_index_update, getCol_foldl_fill, if_neg hT, getCol_selectCols,
    if_pos (by simp)]

theorem getCol_imputedModelDf_feat (df : Frame) (feats : List String) (f : String)
    (hf : f ∈ feats) :
    (imputedModelDf df feats).getCol f = fillColWithMean df f := by
  unfold imputedModelDf
  dsimp only
  rw [getCol_index_update, getCol_foldl_fill, if_pos hf]

/-! ### Claim C3 -/

/-- C3: under `Imputed` strictness, every surviving row of the modeling table
has a non-missing target — rows with a missing target are dropped, never
filled — while each available feature column's missing values are filled with
that column's own mean over the queried range; and whenever
`_prepare_model_data` returns a table (rather than an error), that table is
exactly this one. -/
theorem C3_imputed_never_touches_target (df : Frame) :
    ((imputedModelDf df (get_available_features df)).index =
      df.index.filter (fun d => (df.getCol TARGET_VARIABLE d).isSome)) ∧
    (∀ d ∈ (imputedModelDf df (get_available_features df)).index,
      (imputedModelDf df (get_available_features df)).getCol TARGET_VARIABLE d =
        df.getCol TARGET_VARIABLE d ∧
      ((imputedModelDf df (get_available_features df)).getCol TARGET_VARIABLE d).isSome
        = true) ∧
    (∀ f ∈ get_available_features df, ∀ d : ℤ,
      (df.getCol f d = none →
        (imputedModelDf df (get_available_features df)).getCol f d =
          some (colMean df f)) ∧
      (∀ v : ℚ, df.getCol f d = some v →
        (imputedModelDf df (get_available_features df)).getCol f d = some v)) ∧
    (∀ t fs, prepare_model_data df "Imputed" = .ok (t, fs) →
      t = imputedModelDf df (get_available_features df) ∧
      fs = get_available_features df) := by
  have hT := target_not_available df
  refine ⟨index_imputedModelDf df _ hT, ?_, ?_, ?_⟩
  · intro d hd
    rw [getCol_imputedModelDf_target df _ hT]
    have hidx := index_imputedModelDf df _ hT
    rw [hidx] at hd
    exact ⟨rfl, by simpa using List.of_mem_filter hd⟩
  · intro f hf d
    rw [getCol_imputedModelDf_feat df _ f hf]
    have hcount : df.notnaCount f ≠ 0 := by
      have := available_count hf
      omega
    constructor
    · intro hnone
      unfold fillColWithMean
      rw [hnone]
      simp [hcount]
    · intro v hv
      unfold fillColWithMean
      rw [hv]
  · intro t fs hok
    unfold prepare_model_data at hok
    dsimp only at hok
    by_cases hfe : (get_available_features df).isEmpty = true
    · rw [if_pos hfe] at hok
      cases hok
    · rw [if_neg hfe] at hok
      by_cases hlen :
          (modelDfFor df "Imputed" (get_available_features df)).index.length < 10
      · rw [if_pos hlen] at hok
        cases hok
      · rw [if_neg hlen] at hok
        have h1 : modelDfFor df "Imputed" (get_available_features df) = t ∧
            get_available_features df = fs := by
          cases hok
          exact ⟨rfl, rfl⟩
        have hmod : modelDfFor df "Imputed" (get_available_features df) =
            imputedModelDf df (get_available_features df) := by
          unfold modelDfFor
          rw [if_pos rfl]
        exact ⟨h1.1 ▸ hmod ▸ rfl, h1.2.symm⟩

/-- Witness for C3: on the concrete frame the surviving index drops exactly
the missing-target day, and the feature's missing value is filled with the
column mean. -/
theorem C3_imputed_never_touches_target_witness :
    ((imputedModelDf exFrameC3 (get_available_features exFrameC3)).index =
      exFrameC3.index.filter
        (fun d => (exFrameC3.getCol TARGET_VARIABLE d).isSome)) ∧
    ((imputedModelDf exFrameC3 (get_available_features exFrameC3)).getCol
        "sleep_score" 6 = some (colMean exFrameC3 "sleep_score")) := by
  refine ⟨(C3_imputed_never_touches_target exFrameC3).1, ?_⟩
  exact (((C3_imputed_never_touches_target exFrameC3).2.2.1 "sleep_score"
    (by decide) 6).1) (by decide)

/-! ### Claim C5 -/

/-- C5: with at least one available feature, `_prepare_model_data` under
Strict mode errors (naming the 10-day minimum) exactly when fewer than 10 rows
survive dropping rows with any required column missing, and succeeds exactly at
10; the weekly pipeline's analogous gate errors exactly when fewer than 4
usable weeks remain. -/
theorem C5_minimum_row_gates (df df2 : Frame) (m2 : String)
    (hne : get_available_features df ≠ []) :
    (((strictModelDf df (get_available_features df)).index.length < 10 →
        prepare_model_data df "Strict" = .error (dailyGateMsg "Strict")) ∧
      (10 ≤ (strictModelDf df (get_available_features df)).index.length →
        prepare_model_data df "Strict" =
          .ok (strictModelDf df (get_available_features df),
            get_available_features df))) ∧
    (((modelDfFor df2 m2 (get_available_features df2)).index.length < 4 →
        weekly_prepare_model_data df2 m2 = .error weeklyGateMsg) ∧
      (4 ≤ (modelDfFor df2 m2 (get_available_features df2)).index.length →
        weekly_prepare_model_data df2 m2 =
          .ok (modelDfFor df2 m2 (get_available_features df2)))) := by
  have hfe : (get_available_features df).isEmpty = false := by
    cases hgf : get_available_features df with
    | nil => exact absurd hgf hne
    | cons a l => rfl
  have hstrict : modelDfFor df "Strict" (get_available_features df) =
      strictModelDf df (get_available_features df) := by
    unfold modelDfFor
    rw [if_neg (by decide)]
  refine ⟨⟨?_, ?_⟩, ?_, ?_⟩
  · intro hlen
    unfold prepare_model_data
    dsimp only
    rw [if_neg (by simp [hfe]), hstrict, if_pos hlen]
  · intro hlen
    unfold prepare_model_data
    dsimp only
    rw [if_neg (by simp [hfe]), hstrict, if_neg (by omega)]
  · intro hlen
    unfold weekly_prepare_model_data
    dsimp only
    rw [if_pos hlen]
  · intro hlen
    unfold weekly_prepare_model_data
    dsimp only
    rw [if_neg (by omega)]

/-- Witness for C5: exactly 9 surviving rows fail the Strict daily gate,
exactly 10 succeed; 3 surviving weekly rows fail the 4-week gate, 10 pass it. -/
theorem C5_minimum_row_gates_witness :
    prepare_model_data exFrameC5nine "Strict" = .error (dailyGateMsg "Strict") ∧
    prepare_model_data exFrameC5ten "Strict" =
      .ok (strictModelDf exFrameC5ten (get_available_features exFrameC5ten),
        get_available_features exFrameC5ten) ∧
    weekly_prepare_model_data exFrameC5weekly "Strict" = .error weeklyGateMsg ∧
    weekly_prepare_model_data exFrameC5ten "Strict" =
      .ok (modelDfFor exFrameC5ten "Strict" (get_available_features exFrameC5ten)) := by
  refine ⟨?_, ?_, ?_, ?_⟩
  · exact (C5_minimum_row_gates exFrameC5nine exFrameC5nine "Strict"
      (by decide)).1.1 (by decide)
  · exact (C5_minimum_row_gates exFrameC5ten exFrameC5ten "Strict"
      (by decide)).1.2 (by decide)
  · exact (C5_minimum_row_gates exFrameC5ten exFrameC5weekly "Strict"
      (by decide)).2.1 (by decide)
  · exact (C5_minimum_row_gates exFrameC5nine exFrameC5ten "Strict"
      (by decide)).2.2 (by decide)

/-! ### Claim C6 -/

/-- C6, amended part: whenever at least one candidate feature clears the
availability filter, the inline weekly preparation of `run_weekly_analysis`
agrees exactly — same modeling table, same error behavior — with
`_prepare_model_data` after replacing the 10-row daily gate by the 4-week
gate. -/
theorem C6_weekly_refinement (df : Frame) (dataMethod : String)
    (hne : get_available_features df ≠ []) :
    weekly_prepare_model_data df dataMethod =
      (prepare_model_data_gate4Spec df dataMethod).map Prod.fst := by
  have hfe : (get_available_features df).isEmpty = false := by
    cases hgf : get_available_features df with
    | nil => exact absurd hgf hne
    | cons a l => rfl
  unfold weekly_prepare_model_data prepare_model_data_gate4Spec
  dsimp only
  by_cases hlen :
      (modelDfFor df dataMethod (get_available_features df)).index.length < 4
  · rw [if_pos hlen, if_neg (by simp [hfe]), if_pos hlen]
    rfl
  · rw [if_neg hlen, if_neg (by simp [hfe]), if_neg hlen]
    rfl

/-- Counterexample to C6 as stated: when zero candidate features clear the
availability filter, the weekly path does **not** fail with the distinct
no-features message — it proceeds to row-filtering and succeeds — whereas
`_prepare_model_data` with the 4-week gate fails immediately with that
message. -/
theorem C6_weekly_refinement_counterexample :
    isErrB (weekly_prepare_model_data exFrameC6 "Strict") = false ∧
    prepare_model_data_gate4Spec exFrameC6 "Strict" = .error noFeaturesMsg := by
  constructor
  · rfl
  · rfl

/-- Witness for the amended C6 at a concrete frame with one available
feature. -/
theorem C6_weekly_refinement_witness :
    weekly_prepare_model_data exFrameC5ten "Imputed" =
      (prepare_model_data_gate4Spec exFrameC5ten "Imputed").map Prod.fst :=
  C6_weekly_refinement exFrameC5ten "Imputed" (by decide)

/-! ### Claim C10 -/

theorem startsWith_append (p s : String) : startsWithStr p (p ++ s) = true := by
  unfold startsWithStr
  rw [String.data_append]
  simp [List.prefix_append]

theorem mem_colNames_foldl {α : Type} (l : List α) (nm : α → String) (v : α → Col)
    (df : Frame) (k : String) :
    k ∈ (l.foldl (fun acc x => acc.setCol (nm x) (v x)) df).colNames ↔
      (∃ x ∈ l, nm x = k) ∨ k ∈ df.colNames := by
  induction l generalizing df with
  | nil => simp
  | cons x xs ih =>
    rw [List.foldl_cons, ih, mem_colNames_setCol]
    simp only [List.mem_cons]
    constructor
    · rintro (⟨y, hy, rfl⟩ | (rfl | h))
      · exact Or.inl ⟨y, Or.inr hy, rfl⟩
      · exact Or.inl ⟨x, Or.inl rfl, rfl⟩
      · exact Or.inr h
    · rintro (⟨y, (rfl | hy), rfl⟩ | h)
      · exact Or.inr (Or.inl rfl)
      · exact Or.inl ⟨y, hy, rfl⟩
      · exact Or.inr (Or.inr h)

/-- A registered factor whose every log (under its sanitized column name) is
empty yields the constant-0 column. -/
theorem getCol_addFactors_empty_log (store : Store) (df : Frame) (name : String)
    (Hmem : (name, ([] : List (ℤ × ℚ))) ∈ store.customFactors)
    (Hall : ∀ p ∈ store.customFactors,
      FACTOR_PREF ++ sanitizeFactor p.1 = FACTOR_PREF ++ sanitizeFactor name →
        p.2 = []) :
    (addFactors store df).getCol (FACTOR_PREF ++ sanitizeFactor name) =
      fun _ => some 0 := by
  unfold addFactors
  rw [getCol_foldl_setCol]
  cases hfind : store.customFactors.reverse.find?
      (fun p => (FACTOR_PREF ++ sanitizeFactor p.1) ==
        (FACTOR_PREF ++ sanitizeFactor name)) with
  | none =>
    exfalso
    have := List.find?_eq_none.mp hfind (name, []) (List.mem_reverse.mpr Hmem)
    simp at this
  | some p0 =>
    have hpred := List.find?_some hfind
    simp only [beq_iff_eq] at hpred
    have hp0 : p0 ∈ store.customFactors :=
      List.mem_reverse.mp (List.mem_of_find?_eq_some hfind)
    have hlog := Hall p0 hp0 hpred
    show factorCol p0.2 = _
    rw [hlog]
    rfl

theorem mem_colNames_prepare_factor (store : Store) (s e : ℤ) (name : String)
    (Hmem : (name, ([] : List (ℤ × ℚ))) ∈ store.customFactors) :
    (FACTOR_PREF ++ sanitizeFactor name) ∈
      (prepare_daily_features store s e).colNames := by
  unfold prepare_daily_features addSleepHours
  rw [mem_colNames_setCol]
  right
  unfold addFactors
  rw [mem_colNames_foldl]
  exact Or.inl ⟨(name, []), Hmem, rfl⟩

/-- C10: a registered custom factor with no log entries at all produces a
`factor_<name>` column constantly 0 over the queried range; whenever the range
spans at least 10 days this column has at least 10 non-missing values, is
counted as available by `_get_available_features`, and enters every modeling
table `_prepare_model_data` returns, under either data method. -/
theorem C10_empty_factor_constant_zero (store : Store) (s e : ℤ) (name : String)
    (Hmem : (name, ([] : List (ℤ × ℚ))) ∈ store.customFactors)
    (Hall : ∀ p ∈ store.customFactors,
      FACTOR_PREF ++ sanitizeFactor p.1 = FACTOR_PREF ++ sanitizeFactor name →
        p.2 = [])
    (h10 : 10 ≤ (dateRange s e).length) :
    (∀ d : ℤ, (prepare_daily_features store s e).getCol
        (FACTOR_PREF ++ sanitizeFactor name) d = some 0) ∧
    10 ≤ (prepare_daily_features store s e).notnaCount
      (FACTOR_PREF ++ sanitizeFactor name) ∧
    (FACTOR_PREF ++ sanitizeFactor name) ∈
      get_available_features (prepare_daily_features store s e) ∧
    (∀ dm t fs,
      prepare_model_data (prepare_daily_features store s e) dm = .ok (t, fs) →
      (FACTOR_PREF ++ sanitizeFactor name) ∈ fs ∧
      (FACTOR_PREF ++ sanitizeFactor name) ∈ t.colNames) := by
  have hgc : (prepare_daily_features store s e).getCol
      (FACTOR_PREF ++ sanitizeFactor name) = fun _ => some 0 := by
    unfold prepare_daily_features
    rw [getCol_addSleepHours_ne _ _
      (Ne.symm (factorName_ne (by decide))),
      getCol_addFactors_empty_log store _ name Hmem Hall]
  have hcount : (prepare_daily_features store s e).notnaCount
      (FACTOR_PREF ++ sanitizeFactor name) =
        (prepare_daily_features store s e).index.length := by
    unfold Frame.notnaCount
    rw [hgc]
    simp
  have hlen : 10 ≤ (prepare_daily_features store s e).notnaCount
      (FACTOR_PREF ++ sanitizeFactor name) := by
    rw [hcount, index_prepare_daily]
    exact h10
  have havail : (FACTOR_PREF ++ sanitizeFactor name) ∈
      get_available_features (prepare_daily_features store s e) := by
    refine (mem_available_iff _ _ (Or.inr (startsWith_append _ _))).mpr ⟨?_, hlen⟩
    exact (hasCol_iff_mem _ _).mpr (mem_colNames_prepare_factor store s e name Hmem)
  refine ⟨fun d => by rw [hgc], hlen, havail, ?_⟩
  intro dm t fs hok
  unfold prepare_model_data at hok
  dsimp only at hok
  by_cases hfe : (get_available_features (prepare_daily_features store s e)).isEmpty
    = true
  · rw [if_pos hfe] at hok
    cases hok
  · rw [if_neg hfe] at hok
    by_cases hgl : (modelDfFor (prepare_daily_features store s e) dm
        (get_available_features (prepare_daily_features store s e))).index.length < 10
    · rw [if_pos hgl] at hok
      cases hok
    · rw [if_neg hgl] at hok
      have hts : modelDfFor (prepare_daily_features store s e) dm
          (get_available_features (prepare_daily_features store s e)) = t ∧
          get_available_features (prepare_daily_features store s e) = fs := by
        cases hok
        exact ⟨rfl, rfl⟩
      obtain ⟨ht, hfs⟩ := hts
      refine ⟨hfs ▸ havail, ?_⟩
      rw [← ht]
      unfold modelDfFor
      by_cases hdm : dm = "Imputed"
      · rw [if_pos hdm]
        unfold imputedModelDf
        dsimp only
        rw [colNames_index_update, mem_colNames_foldl]
        exact Or.inl ⟨_, havail, rfl⟩
      · rw [if_neg hdm]
        have hsc : (strictModelDf (prepare_daily_features store s e)
            (get_available_features (prepare_daily_features store s e))).colNames =
            (prepare_daily_features store s e).colNames := rfl
        rw [hsc]
        exact mem_colNames_prepare_factor store s e name Hmem

/-- Witness for C10 over the 10-day range `[0, 9]`. -/
theorem C10_empty_factor_constant_zero_witness :
    (prepare_daily_features exStoreC10 0 9).getCol
        (FACTOR_PREF ++ sanitizeFactor "Late Night") 5 = some 0 ∧
    (FACTOR_PREF ++ sanitizeFactor "Late Night") ∈
      get_available_features (prepare_daily_features exStoreC10 0 9) := by
  have hall : ∀ p ∈ exStoreC10.customFactors,
      FACTOR_PREF ++ sanitizeFactor p.1 =
        FACTOR_PREF ++ sanitizeFactor "Late Night" → p.2 = [] := by
    intro p hp _
    simp only [exStoreC10, List.mem_singleton] at hp
    rw [hp]
  have h := C10_empty_factor_constant_zero exStoreC10 0 9 "Late Night"
    (by simp [exStoreC10]) hall (by decide)
  exact ⟨h.1 5, h.2.2.1⟩

/-! ### Claim C8: rolling-feature lemmas -/

theorem setColAux_append {cs : List (String × Col)} {k : String} {v : Col}
    (h : k ∉ cs.map Prod.fst) : setColAux cs k v = cs ++ [(k, v)] := by
  induction cs with
  | nil => rfl
  | cons c cs ih =>
    have hck : ¬ c.1 = k := fun hh => h (List.mem_cons.mpr (Or.inl hh.symm))
    simp only [setColAux, if_neg hck]
    rw [ih (fun hm => h (List.mem_cons.mpr (Or.inr hm)))]
    rfl

theorem foldl_setColAux_append : ∀ {l acc : List (String × Col)},
    (∀ k ∈ l.map Prod.fst, k ∉ acc.map Prod.fst) → (l.map Prod.fst).Nodup →
    l.foldl (fun a e => setColAux a e.1 e.2) acc = acc ++ l := by
  intro l
  induction l with
  | nil =>
    intro acc _ _
    simp
  | cons e es ih =>
    intro acc hd hn
    rw [List.foldl_cons, setColAux_append (hd e.1 (by simp))]
    rw [ih ?_ ?_]
    · simp
    · intro k hk
      rw [List.map_append]
      intro hmem
      rcases List.mem_append.mp hmem with h1 | h1
      · exact hd k (by simp [hk]) h1
      · simp only [List.map_cons, List.map_nil, List.mem_singleton] at h1
        rw [List.map_cons] at hn
        exact (List.nodup_cons.mp hn).1 (h1 ▸ hk)
    · rw [List.map_cons] at hn
      exact (List.nodup_cons.mp hn).2

theorem dictOf_eq_self {l : List (String × Col)} (h : (l.map Prod.fst).Nodup) :
    dictOf l = l := by
  unfold dictOf
  rw [foldl_setColAux_append (by simp) h]
  simp

theorem find?_of_mem_nodup {l : List (String × Col)} {k : String} {v : Col}
    (hmem : (k, v) ∈ l) (hn : (l.map Prod.fst).Nodup) :
    l.find? (fun c => c.1 == k) = some (k, v) := by
  induction l with
  | nil => cases hmem
  | cons c cs ih =>
    rcases List.mem_cons.mp hmem with rfl | hmem2
    · simp [List.find?_cons]
    · have hck : (c.1 == k) = false := by
        simp only [beq_eq_false_iff_ne, ne_eq]
        intro hck
        have hkm : k ∈ cs.map Prod.fst := List.mem_map_of_mem Prod.fst hmem2
        rw [List.map_cons] at hn
        exact (List.nodup_cons.mp hn).1 (hck ▸ hkm)
      rw [List.find?_cons, hck]
      rw [List.map_cons] at hn
      exact ih hmem2 (List.nodup_cons.mp hn).2

theorem getCol_compute_rolling {df : Frame} {windows : List ℕ} {m : ℕ}
    {k : String} {v : Col}
    (hnod : (df.colNames ++ (rollEntries df windows m).map Prod.fst).Nodup)
    (hmem : (k, v) ∈ rollEntries df windows m) :
    (compute_rolling_features df windows m).getCol k = v := by
  obtain ⟨h1, h2, hdisj⟩ := List.nodup_append.mp hnod
  have hk : k ∈ (rollEntries df windows m).map Prod.fst :=
    List.mem_map_of_mem _ hmem
  have hkdf : k ∉ df.colNames := fun hc => hdisj hc hk
  unfold compute_rolling_features Frame.getCol
  dsimp only
  rw [List.find?_append]
  have hnone : df.cols.find? (fun c => c.1 == k) = none := by
    rw [List.find?_eq_none]
    intro c hc
    simp only [beq_iff_eq]
    intro he
    exact hkdf (he ▸ List.mem_map_of_mem Prod.fst hc)
  rw [hnone, dictOf_eq_self h2, Option.none_or, find?_of_mem_nodup hmem h2]

theorem mem_rollEntries (df : Frame) (windows : List ℕ) (m : ℕ) {w : ℕ}
    {c : String} (hw : w ∈ windows) (hc : c ∈ ROLLABLE_COLS)
    (hpres : df.hasCol c = true) :
    (c ++ "_roll" ++ toString w ++ "_mean", rollMeanCol df c w m) ∈
        rollEntries df windows m ∧
    (c ++ "_lag" ++ toString w ++ "_mean", lagMeanCol df c w m) ∈
        rollEntries df windows m := by
  unfold rollEntries
  constructor <;>
  · rw [List.mem_flatMap]
    refine ⟨w, hw, ?_⟩
    rw [List.mem_flatMap]
    exact ⟨c, List.mem_filter.mpr ⟨hc, hpres⟩, by simp⟩

theorem posOf_getD {l : List ℤ} (hn : l.Nodup) : ∀ {i : ℕ}, i < l.length →
    posOf l (l.getD i 0) = some i := by
  induction l with
  | nil =>
    intro i hi
    simp at hi
  | cons x xs ih =>
    intro i hi
    cases i with
    | zero => simp [posOf]
    | succ j =>
      have hj : j < xs.length := by
        simp only [List.length_cons] at hi
        omega
      have hget : (x :: xs).getD (j + 1) 0 = xs.getD j 0 := rfl
      rw [hget]
      have hx : ¬ x = xs.getD j 0 := by
        intro h
        have hmem : xs.getD j 0 ∈ xs := by
          rw [List.getD_eq_getElem xs 0 hj]
          exact List.getElem_mem hj
        rw [← h] at hmem
        exact (List.nodup_cons.mp hn).1 hmem
      simp only [posOf, if_neg hx, ih (List.nodup_cons.mp hn).2 hj]
      rfl

theorem length_windowSlice {vals : List Cell} {w i : ℕ} (h1 : w ≤ i + 1)
    (h2 : i < vals.length) : (windowSlice vals w i).length = w := by
  unfold windowSlice
  rw [List.length_drop, List.length_take]
  omega

theorem windowSlice_sublist (vals : List Cell) (w i : ℕ) :
    (windowSlice vals w i).Sublist vals :=
  (List.drop_sublist _ _).trans (List.take_sublist _ _)

theorem length_filterMap_id {l : List Cell} (h : ∀ x ∈ l, x.isSome = true) :
    (l.filterMap id).length = l.length := by
  induction l with
  | nil => rfl
  | cons x xs ih =>
    have hx := h x (by simp)
    obtain ⟨y, rfl⟩ := Option.isSome_iff_exists.mp hx
    simp only [List.filterMap_cons, id, List.length_cons]
    rw [ih (fun z hz => h z (by simp [hz]))]

/-- Every cell of a fully observed column is non-missing. -/
theorem colVals_all_some {df : Frame} {col : String}
    (hfull : ∀ d ∈ df.index, (df.getCol col d).isSome = true) :
    ∀ x ∈ df.colVals col, x.isSome = true := by
  intro x hx
  unfold Frame.colVals at hx
  rw [List.mem_map] at hx
  obtain ⟨d, hd, rfl⟩ := hx
  exact hfull d hd

/-! ### Claim C8 -/

/-- C8: for every configured window size `w` and rollable column with no
missing values, `{col}_roll{w}_mean` at position `i ≥ w - 1` is the arithmetic
mean of the trailing `w` raw values, and `{col}_lag{w}_mean` at position
`i ≥ w` equals `{col}_roll{w}_mean` at position `i - w`.  (The name-freshness
hypothesis says the generated rolling names collide neither with existing
columns nor with each other, which holds for the engine's configurations.) -/
theorem C8_rolling_windows (df : Frame) (windows : List ℕ) (m : ℕ) (w : ℕ)
    (col : String) (i : ℕ)
    (hw : w ∈ windows) (hc : col ∈ ROLLABLE_COLS) (hpres : df.hasCol col = true)
    (hfull : ∀ d ∈ df.index, (df.getCol col d).isSome = true)
    (hm : 1 ≤ m) (hmw : m ≤ w)
    (hnodupIdx : df.index.Nodup)
    (hnames : (df.colNames ++ (rollEntries df windows m).map Prod.fst).Nodup)
    (hi : i < df.index.length) :
    (w - 1 ≤ i →
      ((windowSlice (df.colVals col) w i).filterMap id).length = w ∧
      (compute_rolling_features df windows m).getCol
          (col ++ "_roll" ++ toString w ++ "_mean") (df.index.getD i 0) =
        some (((windowSlice (df.colVals col) w i).filterMap id).sum / (w : ℚ))) ∧
    (w ≤ i →
      (compute_rolling_features df windows m).getCol
          (col ++ "_lag" ++ toString w ++ "_mean") (df.index.getD i 0) =
        (compute_rolling_features df windows m).getCol
          (col ++ "_roll" ++ toString w ++ "_mean") (df.index.getD (i - w) 0)) := by
  obtain ⟨hmeanMem, hlagMem⟩ := mem_rollEntries df windows m hw hc hpres
  have hmeanEq := getCol_compute_rolling hnames hmeanMem
  have hlagEq := getCol_compute_rolling hnames hlagMem
  have hvlen : (df.colVals col).length = df.index.length := List.length_map _ _
  have hobMem : ∀ x ∈ windowSlice (df.colVals col) w i, x.isSome = true :=
    fun x hx => colVals_all_some hfull x ((windowSlice_sublist _ _ _).subset hx)
  constructor
  · intro hw1
    have hslice : (windowSlice (df.colVals col) w i).length = w :=
      length_windowSlice (by omega) (by omega)
    have hoblen : ((windowSlice (df.colVals col) w i).filterMap id).length = w := by
      rw [length_filterMap_id hobMem, hslice]
    refine ⟨hoblen, ?_⟩
    rw [hmeanEq]
    unfold rollMeanCol
    rw [posOf_getD hnodupIdx hi]
    unfold rollMeanAt
    dsimp only
    rw [if_pos (by rw [hoblen]; omega), hoblen]
  · intro hwi
    rw [hlagEq, hmeanEq]
    unfold lagMeanCol rollMeanCol
    rw [posOf_getD hnodupIdx hi, posOf_getD hnodupIdx (by omega)]
    dsimp only
    rw [if_pos hwi]

/-- Witness for C8 with window 2, `min_periods` 1, at position 2. -/
theorem C8_rolling_windows_witness :
    ((windowSlice (exFrameC8.colVals "sleep_score") 2 2).filterMap id).length = 2 ∧
    (compute_rolling_features exFrameC8 [2] 1).getCol
        ("sleep_score" ++ "_roll" ++ toString 2 ++ "_mean")
        (exFrameC8.index.getD 2 0) =
      some (((windowSlice (exFrameC8.colVals "sleep_score") 2 2).filterMap id).sum
        / (2 : ℚ)) ∧
    (compute_rolling_features exFrameC8 [2] 1).getCol
        ("sleep_score" ++ "_lag" ++ toString 2 ++ "_mean")
        (exFrameC8.index.getD 2 0) =
      (compute_rolling_features exFrameC8 [2] 1).getCol
        ("sleep_score" ++ "_roll" ++ toString 2 ++ "_mean")
        (exFrameC8.index.getD 0 0) := by
  have h := C8_rolling_windows exFrameC8 [2] 1 2 "sleep_score" 2
    (by decide) (by decide) (by decide) (by decide) (by decide) (by decide)
    (by decide) (by decide) (by decide)
  exact ⟨(h.1 (by decide)).1, (h.1 (by decide)).2, h.2 (by decide)⟩

/-! ### Claim C7 -/

/-- The dummy column names are exactly the sorted observed categories minus
the dropped first one. -/
theorem dayDummies_names (df : Frame) :
    (dayDummies df).map MCol.name = (sortedUniqueDays df).drop 1 := by
  unfold dayDummies
  rw [List.map_map]
  exact List.map_id _

/-- Every weekday name produced by `day_name()` is one of the seven names. -/
theorem dayName_mem (d : ℤ) : dayName d ∈ DAY_NAMES := by
  unfold dayName
  by_cases h : ((d % 7 + 7) % 7).toNat < DAY_NAMES.length
  · rw [List.getD_eq_getElem _ _ h]
    exact List.getElem_mem h
  · rw [List.getD_eq_default _ _ (by omega)]
    decide

/-- Dummy names come from the observed day-of-week values. -/
theorem dayDummies_names_subset (df : Frame)
    (hdow : ∀ d : ℤ, df.dow d ∈ DAY_NAMES) :
    ∀ nmm ∈ (dayDummies df).map MCol.name, nmm ∈ DAY_NAMES := by
  intro nmm hnm
  rw [dayDummies_names] at hnm
  have h1 : nmm ∈ sortedUniqueDays df := List.mem_of_mem_drop hnm
  unfold sortedUniqueDays at h1
  have h2 := (List.perm_insertionSort
    (fun a b => strLeB a b = true) ((df.index.map df.dow).dedup)).mem_iff.mp h1
  rw [List.mem_dedup, List.mem_map] at h2
  obtain ⟨d, _hd, rfl⟩ := h2
  exact hdow d

/-- C7, amended: the matrix the PCA is fit on
(`X.select_dtypes(include=number)`) is the whole design matrix — numeric
features **and** the integer-typed day-of-week dummies, which are numeric too —
while the post-PCA regression design contains only the constant and the
principal components, never a day-of-week dummy. -/
theorem C7_pca_matrix (df : Frame) (feats : List String) (fdt : String → Dtype)
    (n : ℕ)
    (hnum : ∀ f ∈ feats, (fdt f).isNumeric = true)
    (hdow : ∀ d : ℤ, df.dow d ∈ DAY_NAMES) :
    pcaInputCols df feats fdt = prepare_model_matrices df feats fdt ∧
    (∀ nmm ∈ (dayDummies df).map MCol.name,
      nmm ∈ (pcaInputCols df feats fdt).map MCol.name) ∧
    (∀ nmm ∈ (dayDummies df).map MCol.name, nmm ∉ pcaRegressionDesign n) := by
  have hall : pcaInputCols df feats fdt = prepare_model_matrices df feats fdt := by
    unfold pcaInputCols
    rw [List.filter_eq_self]
    intro c hc
    unfold prepare_model_matrices at hc
    rcases List.mem_append.mp hc with h1 | h1
    · rw [List.mem_map] at h1
      obtain ⟨f, hf, rfl⟩ := h1
      exact hnum f hf
    · unfold dayDummies at h1
      rw [List.mem_map] at h1
      obtain ⟨nm2, _hnm, rfl⟩ := h1
      rfl
  refine ⟨hall, ?_, ?_⟩
  · intro nmm hnm
    rw [hall]
    unfold prepare_model_matrices
    rw [List.map_append]
    exact List.mem_append.mpr (Or.inr hnm)
  · intro nmm hnm
    have hday : nmm ∈ DAY_NAMES := dayDummies_names_subset df hdow nmm hnm
    intro hreg
    unfold pcaRegressionDesign at hreg
    rcases List.mem_cons.mp hreg with rfl | hpc
    · exact absurd hday (by decide)
    · unfold pcNames at hpc
      rw [List.mem_map] at hpc
      obtain ⟨i, _hi, hpcn⟩ := hpc
      have hsw : startsWithStr "PC_" nmm = true := by
        rw [← hpcn]
        exact startsWith_append _ _
      have hfalse : startsWithStr "PC_" nmm = false := by
        revert hday
        cases hday2 : decide (nmm ∈ DAY_NAMES) with
        | false => intro hday; exact absurd hday (of_decide_eq_false hday2)
        | true =>
          intro _
          have hmem := of_decide_eq_true hday2
          fin_cases hmem <;> decide
      rw [hsw] at hfalse
      cases hfalse

/-- Counterexample to C7 as stated: the day-of-week dummy `Monday` (dtype
int) **is** among the columns of the matrix the PCA is fit on, because
`select_dtypes(include=number)` keeps integer dummy columns. -/
theorem C7_pca_matrix_counterexample :
    "Monday" ∈ (dayDummies exFrameC7).map MCol.name ∧
    "Monday" ∈
      (pcaInputCols exFrameC7 ["sleep_score"] (fun _ => Dtype.float)).map
        MCol.name := by
  constructor
  · rw [dayDummies_names]
    decide
  · decide

/-- Witness for the amended C7 on the concrete 14-day frame. -/
theorem C7_pca_matrix_witness :
    pcaInputCols exFrameC7 ["sleep_score"] (fun _ => Dtype.float) =
      prepare_model_matrices exFrameC7 ["sleep_score"] (fun _ => Dtype.float) ∧
    "Monday" ∉ pcaRegressionDesign 3 := by
  have h := C7_pca_matrix exFrameC7 ["sleep_score"] (fun _ => Dtype.float) 3
    (by intro f _; rfl) (fun d => dayName_mem d)
  refine ⟨h.1, h.2.2 "Monday" ?_⟩
  rw [dayDummies_names]
  decide

/-! ### Claim C9 -/

/-- Every entry of the OLS factor lists arises from a kept fitted parameter. -/
theorem ols_lists_from_kept {fitted : List FittedParam} {fd : FactorData}
    (h : fd ∈ (run_standard_ols_analysis fitted).1 ∨
      fd ∈ (run_standard_ols_analysis fitted).2) :
    ∃ p ∈ fitted, olsKeep p = true ∧ fd = mkFactorData p := by
  unfold run_standard_ols_analysis at h
  dsimp only at h
  rcases h with h | h
  · have h2 := (List.perm_insertionSort
      (fun a b : FactorData => |b.coefficient| ≤ |a.coefficient|) _).mem_iff.mp h
    rw [List.mem_map] at h2
    obtain ⟨p, hp, rfl⟩ := h2
    have hp2 := List.mem_filter.mp hp
    have hp3 := List.mem_filter.mp hp2.1
    exact ⟨p, hp3.1, hp3.2, rfl⟩
  · rw [List.mem_map] at h
    obtain ⟨p, hp, rfl⟩ := h
    have hp2 := List.mem_filter.mp hp
    have hp3 := List.mem_filter.mp hp2.1
    exact ⟨p, hp3.1, hp3.2, rfl⟩

/-- Every entry of the Lasso factor lists arises from a non-day-named
coefficient. -/
theorem lasso_lists_from_kept {pairs : List (String × ℚ)} {ld : LassoData}
    (h : ld ∈ (run_lasso_analysis pairs).1 ∨ ld ∈ (run_lasso_analysis pairs).2) :
    ∃ q ∈ pairs, is_day_of_week_feature q.1 = false ∧ ld = mkLassoData q := by
  unfold run_lasso_analysis at h
  dsimp only at h
  rcases h with h | h
  · have h2 := (List.perm_insertionSort
      (fun a b : LassoData => |b.coefficient| ≤ |a.coefficient|) _).mem_iff.mp h
    rw [List.mem_map] at h2
    obtain ⟨q, hq, rfl⟩ := h2
    have hq2 := List.mem_filter.mp hq
    have hq3 := List.mem_filter.mp hq2.1
    refine ⟨q, hq3.1, ?_, rfl⟩
    simpa using hq3.2
  · rw [List.mem_map] at h
    obtain ⟨q, hq, rfl⟩ := h
    have hq2 := List.mem_filter.mp hq
    have hq3 := List.mem_filter.mp hq2.1
    refine ⟨q, hq3.1, ?_, rfl⟩
    simpa using hq3.2

/-- C9: any fitted factor whose column name contains one of `Mon ... Sun` —
including a genuine feature such as `factor_Monthly_review` — is part of the
fitted design (its coefficient stays in the model), yet is omitted from the
significant and insignificant lists of `run_standard_ols_analysis` and from
the selected and eliminated lists of `run_lasso_analysis`: every displayed
entry of those lists arises from a parameter that is not day-of-week-named. -/
theorem C9_day_substring_filter (df : Frame) (feats : List String)
    (fdt : String → Dtype) (fitted : List FittedParam)
    (pairs : List (String × ℚ)) (nm : String)
    (hX : nm ∈ (prepare_model_matrices df feats fdt).map MCol.name)
    (hday : is_day_of_week_feature nm = true)
    (hfit : fitted.map FittedParam.name =
      "const" :: (prepare_model_matrices df feats fdt).map MCol.name)
    (hpairs : pairs.map Prod.fst =
      (prepare_model_matrices df feats fdt).map MCol.name) :
    (∃ p ∈ fitted, p.name = nm) ∧
    (∃ q ∈ pairs, q.1 = nm) ∧
    (∀ p ∈ fitted, p.name = nm → olsKeep p = false) ∧
    (∀ fd, (fd ∈ (run_standard_ols_analysis fitted).1 ∨
        fd ∈ (run_standard_ols_analysis fitted).2) →
      ∃ p ∈ fitted, is_day_of_week_feature p.name = false ∧
        fd = mkFactorData p) ∧
    (∀ ld, (ld ∈ (run_lasso_analysis pairs).1 ∨
        ld ∈ (run_lasso_analysis pairs).2) →
      ∃ q ∈ pairs, is_day_of_week_feature q.1 = false ∧ ld = mkLassoData q) := by
  refine ⟨?_, ?_, ?_, ?_, fun ld h => lasso_lists_from_kept h⟩
  · have : nm ∈ fitted.map FittedParam.name := by
      rw [hfit]
      exact List.mem_cons_of_mem _ hX
    rw [List.mem_map] at this
    obtain ⟨p, hp, rfl⟩ := this
    exact ⟨p, hp, rfl⟩
  · have : nm ∈ pairs.map Prod.fst := by
      rw [hpairs]
      exact hX
    rw [List.mem_map] at this
    obtain ⟨q, hq, rfl⟩ := this
    exact ⟨q, hq, rfl⟩
  · intro p _hp hpnm
    unfold olsKeep
    rw [hpnm, hday]
    simp
  · intro fd h
    obtain ⟨p, hp, hkeep, rfl⟩ := ols_lists_from_kept h
    refine ⟨p, hp, ?_, rfl⟩
    unfold olsKeep at hkeep
    rw [Bool.not_eq_true'] at hkeep
    exact (Bool.or_eq_false_iff.mp hkeep).2

/-- Witness for C9 with the custom factor `factor_Monthly_review`. -/
theorem C9_day_substring_filter_witness :
    (∃ p ∈ fittedC9, p.name = "factor_Monthly_review") ∧
    (∀ p ∈ fittedC9, p.name = "factor_Monthly_review" → olsKeep p = false) ∧
    (∀ fd, (fd ∈ (run_standard_ols_analysis fittedC9).1 ∨
        fd ∈ (run_standard_ols_analysis fittedC9).2) →
      ∃ p ∈ fittedC9, is_day_of_week_feature p.name = false ∧
        fd = mkFactorData p) := by
  have h := C9_day_substring_filter exFrameC7 featsC9 (fun _ => Dtype.float)
    fittedC9 pairsC9 "factor_Monthly_review"
    (by decide) (by decide)
    (by unfold fittedC9; rw [List.map_cons, List.map_map]; rfl)
    (by unfold pairsC9; rw [List.map_map]; rfl)
  exact ⟨h.1, h.2.2.1, h.2.2.2.1⟩

end StudyTracker
